import Mathlib

/-!
Shallow embedding of the transcript post-processing pipeline of
`src/asr_transcriber.py` (class `ASRTranscriber`): text cleaning
(`_clean_text`), token-to-segment segmentation
(`_create_segments_from_timestamps`), time-code formatting
(`_seconds_to_srt_time`, `_seconds_to_vtt_time`) and output rendering
(`format_transcription_output`, `_format_as_srt`, `_format_as_vtt`).

Python floats are modelled as rationals (all times in the pipeline are
millisecond integers divided by 1000.0, hence exact); Python `None` is
modelled by `Option`; a Python dict key that may be absent is modelled by an
outer `Option` layer.  Operations that can raise a Python exception
(`TypeError` from arithmetic on `None`) are modelled in the `Except` monad.
-/

/-- Whitespace as used by Python's `\s` / `str.strip` (restricted to the
ASCII whitespace characters that `Char.isWhitespace` covers). -/
def isPySpace (c : Char) : Bool := c.isWhitespace

/-- Drop every trailing character satisfying `isPySpace`. -/
def dropTrailingWs : List Char → List Char
  | [] => []
  | c :: rest =>
    match dropTrailingWs rest with
    | [] => if isPySpace c then [] else [c]
    | r => c :: r

/-- Characters dropped from both ends by Python's `str.strip()`. -/
def trimChars (l : List Char) : List Char :=
  dropTrailingWs (l.dropWhile isPySpace)

/-- Python `s.strip()`. -/
def pyStrip (s : String) : String := ⟨trimChars s.data⟩

/-- Scan for the first `'|'`; return the suffix just after it. -/
def findPipe : List Char → Option (List Char)
  | [] => none
  | c :: rest => if c = '|' then some rest else findPipe rest

/-- One left-to-right pass of `re.sub(r'<\|[^|]*\|>', '', text)`: at each
position a match exists iff the text reads `<|`, then a (possibly empty) run
of non-`'|'` characters, then `|>` (so the `[^|]*` run necessarily stops at
the first `'|'`, and no backtracking can succeed); matches are deleted and
scanning resumes after them, otherwise the character is kept and scanning
moves one position.  The fuel argument (initially the input length, which
each step strictly exceeds the consumed amount of) only makes the recursion
structural. -/
def removeMarkupGo : Nat → List Char → List Char
  | _, [] => []
  | 0, l => l
  | fuel + 1, '<' :: '|' :: rest =>
    (match findPipe rest with
     | some ('>' :: r2) => removeMarkupGo fuel r2
     | _ => '<' :: removeMarkupGo fuel ('|' :: rest))
  | fuel + 1, c :: rest => c :: removeMarkupGo fuel rest

/-- `re.sub(r'<\|[^|]*\|>', '', text)` over a character list. -/
def removeMarkup (l : List Char) : List Char := removeMarkupGo l.length l

/-- One pass of `re.sub(r'\s+', ' ', text)`: every maximal whitespace run
becomes one `' '`.  The flag records whether the previous character belonged
to a whitespace run. -/
def collapseWsAux : Bool → List Char → List Char
  | _, [] => []
  | prevWs, c :: rest =>
    if isPySpace c then
      if prevWs then collapseWsAux true rest
      else ' ' :: collapseWsAux true rest
    else c :: collapseWsAux false rest

/-- Whether a character list does not start with whitespace. -/
def headNonWs : List Char → Bool
  | [] => true
  | c :: _ => !(isPySpace c)

/-- Whitespace-normal form: every whitespace character is `' '` and is
followed by a non-whitespace character (the shape `collapseWsAux` produces). -/
def wsNormal : List Char → Bool
  | [] => true
  | c :: rest =>
    (if isPySpace c then c == ' ' && headNonWs rest else true) && wsNormal rest

/-- `ASRTranscriber._clean_text`: drop `<|...|>` markup, collapse whitespace
runs to single spaces, strip both ends; empty input yields `""`. -/
def clean_text (text : String) : String :=
  if text = "" then ""
  else pyStrip ⟨collapseWsAux false (removeMarkup text.data)⟩

/-- Left-pad with zeros to the given width (Python `"%0Nd"`, `n ≥ 0`). -/
def padNat (w : Nat) (n : Nat) : String :=
  let s := toString n
  if s.length ≥ w then s else String.mk (List.replicate (w - s.length) '0') ++ s

/-- Python `"%0Nd"` on an integer: the sign comes first and zero padding sits
between the sign and the digits. -/
def padInt (w : Nat) (n : Int) : String :=
  if n < 0 then "-" ++ padNat (w - 1) (-n).toNat else padNat w n.toNat

/-- Python float modulo `a % b` (result has the divisor's sign; for the
positive divisors used here it lies in `[0, b)`). -/
def pyMod (a b : ℚ) : ℚ := a - b * (⌊a / b⌋ : ℤ)

/-- Python `int()` truncation toward zero. -/
def intPy (q : ℚ) : Int := if q < 0 then -⌊-q⌋ else ⌊q⌋

/-- `ASRTranscriber._seconds_to_srt_time`: `HH:MM:SS,mmm` with comma
millisecond separator; fields are produced by `int(seconds // 3600)`,
`int((seconds % 3600) // 60)`, `int(seconds % 60)` and
`int((seconds - int(seconds)) * 1000)`. -/
def seconds_to_srt_time (seconds : ℚ) : String :=
  let hours : Int := ⌊seconds / 3600⌋
  let minutes : Int := ⌊pyMod seconds 3600 / 60⌋
  let secs : Int := intPy (pyMod seconds 60)
  let millisecs : Int := intPy ((seconds - (intPy seconds : ℚ)) * 1000)
  padInt 2 hours ++ ":" ++ padInt 2 minutes ++ ":" ++ padInt 2 secs ++ "," ++
    padInt 3 millisecs

/-- `ASRTranscriber._seconds_to_vtt_time`: `HH:MM:%06.3f` with dot separator;
the seconds-within-minute component `seconds % 60` is printed with three
decimals (modelled by rounding `secs * 1000` to the nearest integer, half
up; every time the pipeline produces is an exact multiple of `1/1000`, where
no rounding occurs at all). -/
def seconds_to_vtt_time (seconds : ℚ) : String :=
  let hours : Int := ⌊seconds / 3600⌋
  let minutes : Int := ⌊pyMod seconds 3600 / 60⌋
  let secs : ℚ := pyMod seconds 60
  let scaled : Int := ⌊secs * 1000 + 1 / 2⌋
  padInt 2 hours ++ ":" ++ padInt 2 minutes ++ ":" ++ padInt 2 (scaled / 1000) ++
    "." ++ padNat 3 (scaled % 1000).toNat

/-- Test whether the first list is a leading run of the second. -/
def charsStartWith : List Char → List Char → Bool
  | [], _ => true
  | _ :: _, [] => false
  | a :: p, b :: l => a == b && charsStartWith p l

/-- A word that is itself a markup token: `word.startswith('<|') and
word.endswith('|>')` (the `endswith` test is the `startswith` test on the
reversed characters). -/
def isMarkupWord (w : String) : Bool :=
  charsStartWith "<|".data w.data &&
    charsStartWith "|>".data.reverse w.data.reverse

/-- Per-word timing record appended to `current_segment["words"]`. -/
structure WordInfo where
  word : String
  start : ℚ
  end_ : ℚ
deriving DecidableEq

/-- A segment dict as built by `_create_segments_from_timestamps`
(`end` is a Lean keyword, hence the field name `end_`). -/
structure Segment where
  text : String
  start : Option ℚ
  end_ : Option ℚ
  words : List WordInfo
deriving DecidableEq

/-- The terminal punctuation marks that close a segment:
`['。', '！', '？', '.', '!', '?', ',', '，']`. -/
def punctuationMarks : List String := ["。", "！", "？", ".", "!", "?", ",", "，"]

/-- The fresh empty `current_segment`. -/
def emptySegment : Segment := ⟨"", none, none, []⟩

/-- The loop body of `_create_segments_from_timestamps` over the zipped
word/timestamp stream.  Markup words are skipped by `continue` (so they also
skip the last-index flush check); a non-markup word is appended to the
running segment, which is emitted when the word is terminal punctuation or
the stream ends, and dropped instead when its text strips to empty. -/
def segGo : Segment → List (String × Int × Int) → List Segment
  | _, [] => []
  | cur, (word, sms, ems) :: rest =>
    if isMarkupWord word then segGo cur rest
    else
      let start_sec : ℚ := (sms : ℚ) / 1000
      let end_sec : ℚ := (ems : ℚ) / 1000
      let cur' : Segment :=
        { text := cur.text ++ word
          start := match cur.start with | none => some start_sec | some s => some s
          end_ := some end_sec
          words := cur.words ++ [⟨word, start_sec, end_sec⟩] }
      if word ∈ punctuationMarks ∨ rest = [] then
        (if pyStrip cur'.text ≠ "" then [cur'] else []) ++ segGo emptySegment rest
      else segGo cur' rest

/-- `ASRTranscriber._create_segments_from_timestamps` (timestamps are
millisecond integer pairs; the `text` argument is unused, as in the source). -/
def create_segments_from_timestamps (text : String)
    (timestamps : List (Int × Int)) (words : List String) : List Segment :=
  if timestamps = [] ∨ words = [] ∨ timestamps.length ≠ words.length then []
  else segGo emptySegment (words.zip timestamps)

/-- Entry of `result["formatted_segments"]` as built by
`transcribe_with_timestamps`: 1-based `index`, `start_time`/`end_time` in
seconds (`none` models a Python `None` value, which `segment.get("start", 0)`
passes through when the key holds `None`), `text` and `confidence`. -/
structure FormattedSegment where
  index : Int
  start_time : Option ℚ
  end_time : Option ℚ
  text : String
  confidence : ℚ
deriving DecidableEq

/-- Entry of `result["segments"]`: a dict or a plain string.  For each dict
key the outer `Option` models key presence (`none` = key absent, so
`"start" in segment` is false) and, for the timing keys, the inner `Option`
models a present key holding Python `None`. -/
inductive SegEntry where
  | dict (text_ : Option String) (start_ : Option (Option ℚ))
      (end_ : Option (Option ℚ)) (words : List WordInfo)
  | str (s : String)
deriving DecidableEq

/-- The transcription-result dict exchanged between `transcribe_audio` /
`transcribe_with_timestamps` and `format_transcription_output`. -/
structure TranscriptionResult where
  success : Bool
  text : String
  segments : List SegEntry
  formatted_segments : Option (List FormattedSegment)
  language : String
  duration : ℚ
  confidence : ℚ
  error : Option String
deriving DecidableEq

instance : DecidableEq (Except String String) := fun a b =>
  match a, b with
  | .ok x, .ok y => if h : x = y then isTrue (by rw [h]) else isFalse (by simp [h])
  | .error x, .error y =>
    if h : x = y then isTrue (by rw [h]) else isFalse (by simp [h])
  | .ok _, .error _ => isFalse (by simp)
  | .error _, .ok _ => isFalse (by simp)

/-- Apply `_seconds_to_srt_time` to a value that may be Python `None`:
`None // 3600` raises a `TypeError`, which nothing in the renderer catches. -/
def srtTimeOf : Option ℚ → Except String String
  | none => .error "TypeError: unsupported operand for //: NoneType"
  | some q => .ok (seconds_to_srt_time q)

/-- Apply `_seconds_to_vtt_time` to a value that may be Python `None`. -/
def vttTimeOf : Option ℚ → Except String String
  | none => .error "TypeError: unsupported operand for //: NoneType"
  | some q => .ok (seconds_to_vtt_time q)

/-- Tier 1 of `_format_as_srt`: the loop over `formatted_segments`, using
each entry's own `index`, `start_time`, `end_time` and `text`. -/
def srtFromFormatted : List FormattedSegment → Except String String
  | [] => .ok ""
  | seg :: rest => do
    let st ← srtTimeOf seg.start_time
    let en ← srtTimeOf seg.end_time
    let tail ← srtFromFormatted rest
    .ok (toString seg.index ++ "\n" ++ st ++ " --> " ++ en ++ "\n" ++
      seg.text ++ "\n\n" ++ tail)

/-- Tier 2 of `_format_as_srt`: the loop over `segments` with 0-based
`enumerate` counter `i`; only dict entries carrying both a `start` and an
`end` key emit a cue (numbered `i + 1`), everything else is passed over. -/
def srtFromSegments : Nat → List SegEntry → Except String String
  | _, [] => .ok ""
  | i, .str _ :: rest => srtFromSegments (i + 1) rest
  | i, .dict t? s? e? _ :: rest =>
    match s?, e? with
    | some sv, some ev => do
      let st ← srtTimeOf sv
      let en ← srtTimeOf ev
      let tail ← srtFromSegments (i + 1) rest
      .ok (toString (i + 1 : Nat) ++ "\n" ++ st ++ " --> " ++ en ++ "\n" ++
        (t?.getD "") ++ "\n\n" ++ tail)
    | _, _ => srtFromSegments (i + 1) rest

/-- One of the sentence delimiters `[。！？.!?]` of the fallback splitter. -/
def isSplitChar (c : Char) : Bool := ['。', '！', '？', '.', '!', '?'].contains c

/-- Split a character list at every delimiter, delimiters discarded and empty
pieces kept, as `re.split` does. -/
def splitChars (p : Char → Bool) : List Char → List (List Char)
  | [] => [[]]
  | c :: rest =>
    if p c then [] :: splitChars p rest
    else
      match splitChars p rest with
      | r :: rs => (c :: r) :: rs
      | [] => [[c]]

/-- `re.split(r'[。！？.!?]', text)` followed by
`[s.strip() for s in sentences if s.strip()]` (stripping each piece and
keeping the non-empty ones; filtering after stripping yields the same list). -/
def fallbackSentences (text : String) : List String :=
  ((splitChars isSplitChar text.data).map (fun l => pyStrip ⟨l⟩)).filter (· ≠ "")

/-- Python `sentence.endswith(('。', '！', '？', '.', '!', '?'))`. -/
def endsWithSentenceEnd (s : String) : Bool :=
  match s.data.reverse with
  | [] => false
  | c :: _ => isSplitChar c

/-- Synthetic duration `max(2.0, len(sentence) * 0.4)` of the fallback. -/
def fallbackDuration (s : String) : ℚ := max 2 ((s.length : ℚ) * 0.4)

/-- Tier 3 of `_format_as_srt`: the fallback loop with running clock
`current_time` and 1-based numbering from the 0-based counter `i`;
a sentence that does not end in a terminator gets `。` appended. -/
def srtFallbackGo : Nat → ℚ → List String → String
  | _, _, [] => ""
  | i, current_time, sentence :: rest =>
    let duration := fallbackDuration sentence
    let start_time := seconds_to_srt_time current_time
    let end_time := seconds_to_srt_time (current_time + duration)
    let sentence' :=
      if endsWithSentenceEnd sentence then sentence else sentence ++ "。"
    toString (i + 1 : Nat) ++ "\n" ++ start_time ++ " --> " ++ end_time ++ "\n" ++
      sentence' ++ "\n\n" ++ srtFallbackGo (i + 1) (current_time + duration) rest

/-- `ASRTranscriber._format_as_srt`: tier 1 `formatted_segments` when present
and non-empty, else tier 2 `segments` when non-empty, else the full-text
fallback (which leaves the accumulator empty when `text` is empty). -/
def format_as_srt (result : TranscriptionResult) : Except String String :=
  if result.formatted_segments.getD [] ≠ [] then
    srtFromFormatted (result.formatted_segments.getD [])
  else if result.segments ≠ [] then
    srtFromSegments 0 result.segments
  else if result.text ≠ "" then
    .ok (srtFallbackGo 0 0 (fallbackSentences result.text))
  else
    .ok ""

/-- Python value repr, used only through `reprSegEntry`. -/
def reprTimeVal : Option ℚ → String
  | none => "None"
  | some q => toString q

/-- Canonical stand-in for Python's `str(segment)` on a segment dict (used by
`_format_as_vtt` when a dict lacks a `"text"` key); `str` of a string segment
is the string itself.  No claim depends on the exact dict repr text. -/
def reprSegEntry : SegEntry → String
  | .str s => s
  | .dict t? s? e? _ =>
    "\x7b" ++
      (match t? with | none => "" | some t => "'text': '" ++ t ++ "', ") ++
      (match s? with | none => "" | some v => "'start': " ++ reprTimeVal v ++ ", ") ++
      (match e? with | none => "" | some v => "'end': " ++ reprTimeVal v) ++ "\x7d"

/-- Tier 1 of `_format_as_vtt` (no cue numbering). -/
def vttFromFormatted : List FormattedSegment → Except String String
  | [] => .ok ""
  | seg :: rest => do
    let st ← vttTimeOf seg.start_time
    let en ← vttTimeOf seg.end_time
    let tail ← vttFromFormatted rest
    .ok (st ++ " --> " ++ en ++ "\n" ++ seg.text ++ "\n\n" ++ tail)

/-- Tier 2 of `_format_as_vtt`: dict entries with both timing keys use them;
other dict entries and plain strings get the estimated slot
`[i*duration, (i+1)*duration]` computed from the text length. -/
def vttFromSegments : Nat → List SegEntry → Except String String
  | _, [] => .ok ""
  | i, .dict t? s? e? w :: rest =>
    match s?, e? with
    | some sv, some ev => do
      let st ← vttTimeOf sv
      let en ← vttTimeOf ev
      let text := t?.getD (reprSegEntry (.dict t? s? e? w))
      let tail ← vttFromSegments (i + 1) rest
      .ok (st ++ " --> " ++ en ++ "\n" ++ text ++ "\n\n" ++ tail)
    | _, _ => do
      let t0 := t?.getD ""
      let duration := max 2 ((t0.length : ℚ) * 0.4)
      let st := seconds_to_vtt_time (i * duration)
      let en := seconds_to_vtt_time ((i + 1 : ℚ) * duration)
      let text := t?.getD (reprSegEntry (.dict t? s? e? w))
      let tail ← vttFromSegments (i + 1) rest
      .ok (st ++ " --> " ++ en ++ "\n" ++ text ++ "\n\n" ++ tail)
  | i, .str s :: rest => do
    let duration := max 2 ((s.length : ℚ) * 0.4)
    let st := seconds_to_vtt_time (i * duration)
    let en := seconds_to_vtt_time ((i + 1 : ℚ) * duration)
    let tail ← vttFromSegments (i + 1) rest
    .ok (st ++ " --> " ++ en ++ "\n" ++ s ++ "\n\n" ++ tail)

/-- Tier 3 of `_format_as_vtt` (running clock, no numbering). -/
def vttFallbackGo : ℚ → List String → String
  | _, [] => ""
  | current_time, sentence :: rest =>
    let duration := fallbackDuration sentence
    let st := seconds_to_vtt_time current_time
    let en := seconds_to_vtt_time (current_time + duration)
    let sentence' :=
      if endsWithSentenceEnd sentence then sentence else sentence ++ "。"
    st ++ " --> " ++ en ++ "\n" ++ sentence' ++ "\n\n" ++
      vttFallbackGo (current_time + duration) rest

/-- `ASRTranscriber._format_as_vtt`: the `WEBVTT` header always precedes the
tier-selected body. -/
def format_as_vtt (result : TranscriptionResult) : Except String String := do
  let body ←
    if result.formatted_segments.getD [] ≠ [] then
      vttFromFormatted (result.formatted_segments.getD [])
    else if result.segments ≠ [] then
      vttFromSegments 0 result.segments
    else if result.text ≠ "" then
      .ok (vttFallbackGo 0 (fallbackSentences result.text))
    else
      .ok ""
  .ok ("WEBVTT\n\n" ++ body)

/-- Concatenation of a list of strings. -/
def joinStr : List String → String
  | [] => ""
  | s :: rest => s ++ joinStr rest

/-- Canonical stand-in for `json.dumps(result, ensure_ascii=False, indent=2)`
on the modelled fields; it is total and no claim inspects its exact text. -/
def jsonOfResult (r : TranscriptionResult) : String :=
  "\x7b\n  \"success\": " ++ (if r.success then "true" else "false") ++
    ",\n  \"text\": \"" ++ r.text ++ "\",\n  \"language\": \"" ++ r.language ++
    "\",\n  \"segments\": [" ++ joinStr (r.segments.map reprSegEntry) ++ "]\n\x7d"

/-- `ASRTranscriber.format_transcription_output`: failed results
short-circuit to an error string; `text`, `srt`, `vtt` and `json` select the
respective renderings and anything else falls back to plain text. -/
def format_transcription_output (result : TranscriptionResult)
    (output_format : String) : Except String String :=
  if result.success = false then
    .ok ("转录失败: " ++ result.error.getD "未知错误")
  else if output_format = "text" then .ok result.text
  else if output_format = "srt" then format_as_srt result
  else if output_format = "vtt" then format_as_vtt result
  else if output_format = "json" then .ok (jsonOfResult result)
  else .ok result.text

/-- Chronologically ordered timestamp pairs (milliseconds): each pair has
start ≤ end and consecutive pairs do not overlap. -/
def tsMonotone : List (Int × Int) → Prop
  | [] => True
  | (s, e) :: rest =>
    s ≤ e ∧ (match rest with | [] => True | (s2, _) :: _ => e ≤ s2) ∧ tsMonotone rest

/-- Checker for the claimed segment-list postcondition: every segment has a
numeric start ≤ numeric end, and each segment's start is at least the
previous segment's end. -/
def segmentsChronological : List Segment → Bool
  | [] => true
  | sg :: rest =>
    (match sg.start, sg.end_ with
     | some st, some en =>
       decide (st ≤ en) &&
         (match rest with
          | [] => true
          | sg2 :: _ =>
            match sg2.start with
            | some st2 => decide (en ≤ st2)
            | none => false)
     | _, _ => false) && segmentsChronological rest

/-- Chain invariant on the zipped word/timestamp stream, in seconds: the
bound `b` precedes the next start, each pair is ordered, and the chain
continues from each pair's end. -/
def chainSec (b : ℚ) : List (String × Int × Int) → Prop
  | [] => True
  | (_, sms, ems) :: rest =>
    b ≤ (sms : ℚ) / 1000 ∧ (sms : ℚ) / 1000 ≤ (ems : ℚ) / 1000 ∧
      chainSec ((ems : ℚ) / 1000) rest

/-- Chain invariant on emitted segments: each has numeric start ≤ end, the
first start is at least `lb`, and each end bounds the next start. -/
def chainOK (lb : ℚ) : List Segment → Prop
  | [] => True
  | sg :: rest => ∃ st en, sg.start = some st ∧ sg.end_ = some en ∧
      lb ≤ st ∧ st ≤ en ∧ chainOK en rest

/-- Whether a segments entry is a dict carrying both a `start` and an `end`
key (the tier-2 cue condition of `_format_as_srt`). -/
def hasTimingKeys : SegEntry → Bool
  | .dict _ (some _) (some _) _ => true
  | _ => false

/-- A formatted segment whose two timing values are numbers, not `None`. -/
def numericFS (f : FormattedSegment) : Bool :=
  f.start_time.isSome && f.end_time.isSome

/-- A segments entry none of whose present timing keys holds `None`. -/
def numericTimes : SegEntry → Bool
  | .dict _ s? e? _ =>
    (match s? with | some none => false | _ => true) &&
      (match e? with | some none => false | _ => true)
  | .str _ => true

/-- Every timing value the renderer can reach in this result is numeric. -/
def goodTimes (r : TranscriptionResult) : Prop :=
  (∀ f ∈ r.formatted_segments.getD [], numericFS f = true) ∧
    (∀ e ∈ r.segments, numericTimes e = true)

/-- Python `enumerate` over a string list, counting from `n`. -/
def enumFromN : Nat → List String → List (Nat × String)
  | _, [] => []
  | n, s :: rest => (n, s) :: enumFromN (n + 1) rest

/-- Total synthetic duration of a sentence list. -/
def sumDurations : List String → ℚ
  | [] => 0
  | s :: rest => fallbackDuration s + sumDurations rest

/-- Cue description following the specification's words (used to compare the
fallback loop against the spec): the sentence at 0-based position `k` is
numbered `k + 1`, starts at the sum of the durations of the sentences before
it, ends `max(2.0, 0.4 * len)` later, and gets `。` appended when it does not
already end in a terminator. -/
def specSrtCue (ss : List String) (p : Nat × String) : String :=
  let start := sumDurations (ss.take p.1)
  let duration := fallbackDuration p.2
  let sentence' :=
    if endsWithSentenceEnd p.2 then p.2 else p.2 ++ "。"
  toString (p.1 + 1) ++ "\n" ++ seconds_to_srt_time start ++ " --> " ++
    seconds_to_srt_time (start + duration) ++ "\n" ++ sentence' ++ "\n\n"

/-- Fixture: a successful result carrying disagreeing `formatted_segments`
(tier 1, with its own index 7 and times 0–1) and `segments` (tier 2, with
times 2–3). -/
def tierClashResult : TranscriptionResult :=
  { success := true
    text := "hello"
    segments := [.dict (some "hello") (some (some 2)) (some (some 3)) []]
    formatted_segments := some [⟨7, some 0, some 1, "hello", 0⟩]
    language := "zh"
    duration := 0
    confidence := 0
    error := none }

/-- Fixture: a successful result whose only segment dict carries `start` and
`end` keys holding Python `None` (the shape `_clean_segments_with_timestamps`
builds for string segments). -/
def noneTimingResult : TranscriptionResult :=
  { success := true
    text := "hi"
    segments := [.dict (some "hi") (some none) (some none) []]
    formatted_segments := none
    language := "zh"
    duration := 0
    confidence := 0
    error := none }

/-- Fixture: a successful result with no formatted segments and a single
string segment entry (so the tier-2 loop emits nothing). -/
def stringSegmentResult : TranscriptionResult :=
  { success := true
    text := "hello"
    segments := [.str "x"]
    formatted_segments := none
    language := "zh"
    duration := 0
    confidence := 0
    error := none }

/-- Fixture: a successful result with no segment data and one-character text,
exercising the full-text fallback. -/
def fallbackResult : TranscriptionResult :=
  { success := true
    text := "a"
    segments := []
    formatted_segments := none
    language := "zh"
    duration := 0
    confidence := 0
    error := none }

/-- The four-part segment description the markup-skip claim asserts: a
segment's words are all non-markup, its text is exactly their concatenation,
and its timing is exactly the first/last word's timing — so a markup word
contributes no text, no word-timing record, and never sets or resets
timing. -/
def segInv (sg : Segment) : Prop :=
  (∀ wi ∈ sg.words, isMarkupWord wi.word = false) ∧
    sg.text = joinStr (sg.words.map (fun w => w.word)) ∧
    sg.start = sg.words.head?.map (fun w => w.start) ∧
    sg.end_ = sg.words.getLast?.map (fun w => w.end_)

/-! Helper evaluation lemmas for concrete time codes. -/

theorem srt_time_0 : seconds_to_srt_time 0 = "00:00:00,000" := by
  simp only [seconds_to_srt_time, pyMod, intPy]
  norm_num
  decide

theorem srt_time_1 : seconds_to_srt_time 1 = "00:00:01,000" := by
  simp only [seconds_to_srt_time, pyMod, intPy]
  norm_num
  decide

theorem srt_time_2 : seconds_to_srt_time 2 = "00:00:02,000" := by
  simp only [seconds_to_srt_time, pyMod, intPy]
  norm_num
  decide

theorem srt_time_3 : seconds_to_srt_time 3 = "00:00:03,000" := by
  simp only [seconds_to_srt_time, pyMod, intPy]
  norm_num
  decide

/-- C7: `toSrtTime(65.5)` is `"00:01:05,500"` (comma millisecond separator,
zero padding) and `toVttTime(3661.25)` is `"01:01:01.250"` (dot separator,
`%06.3f` seconds field). -/
theorem claim_C7 :
    seconds_to_srt_time 65.5 = "00:01:05,500" ∧
      seconds_to_vtt_time 3661.25 = "01:01:01.250" := by
  constructor
  · simp only [seconds_to_srt_time, pyMod, intPy]
    norm_num
    decide
  · simp only [seconds_to_vtt_time, pyMod, intPy]
    norm_num
    decide

/-- C6: empty or length-mismatched timestamp/word sequences make the
segmenter return an empty list without error; in particular
`segment(text, [], []) = []` and `segment(text, [[0,100]], ["a","b"]) = []`. -/
theorem claim_C6 (text : String) (timestamps : List (Int × Int))
    (words : List String)
    (h : timestamps = [] ∨ words = [] ∨ timestamps.length ≠ words.length) :
    create_segments_from_timestamps text timestamps words = [] ∧
      create_segments_from_timestamps text [] [] = [] ∧
      create_segments_from_timestamps text [(0, 100)] ["a", "b"] = [] := by
  refine ⟨?_, ?_, ?_⟩
  · rw [create_segments_from_timestamps, if_pos h]
  · rw [create_segments_from_timestamps, if_pos (Or.inl rfl)]
  · rw [create_segments_from_timestamps,
      if_pos (Or.inr (Or.inr (by decide)))]

theorem claim_C6_witness :
    create_segments_from_timestamps "t" [] ["a"] = [] ∧
      create_segments_from_timestamps "t" [] [] = [] ∧
      create_segments_from_timestamps "t" [(0, 100)] ["a", "b"] = [] :=
  claim_C6 "t" [] ["a"] (Or.inl rfl)

/-- C2: the word stream `["你","好","。","再","见"]` with any monotone
equal-length timestamps yields exactly two segments, `"你好。"` ending at the
`。` token's end time in seconds and `"再见"` ending at the last word's end
time; a comma also closes a segment, and a segment whose text strips to
whitespace is dropped rather than appended. -/
theorem claim_C2 (t : String) (p1 p2 p3 p4 p5 : Int × Int)
    (hmono : tsMonotone [p1, p2, p3, p4, p5]) :
    (create_segments_from_timestamps t [p1, p2, p3, p4, p5]
          ["你", "好", "。", "再", "见"]).map (fun s => (s.text, s.end_)) =
        [("你好。", some ((p3.2 : ℚ) / 1000)), ("再见", some ((p5.2 : ℚ) / 1000))] ∧
      (create_segments_from_timestamps t [(0, 400), (400, 800), (800, 1200)]
          ["a", "。", " "]).map (fun s => s.text) = ["a。"] ∧
      (create_segments_from_timestamps t [(0, 400), (400, 800), (800, 1200)]
          ["a", ",", "b"]).map (fun s => s.text) = ["a,", "b"] := by
  obtain ⟨s1, e1⟩ := p1
  obtain ⟨s2, e2⟩ := p2
  obtain ⟨s3, e3⟩ := p3
  obtain ⟨s4, e4⟩ := p4
  obtain ⟨s5, e5⟩ := p5
  refine ⟨?_, ?_, ?_⟩ <;>
    simp +decide [create_segments_from_timestamps, segGo, emptySegment]

theorem claim_C2_witness :
    (create_segments_from_timestamps "t"
          [(0, 100), (100, 200), (200, 300), (300, 400), (400, 500)]
          ["你", "好", "。", "再", "见"]).map (fun s => (s.text, s.end_)) =
        [("你好。", some ((300 : ℚ) / 1000)), ("再见", some ((500 : ℚ) / 1000))] ∧
      (create_segments_from_timestamps "t" [(0, 400), (400, 800), (800, 1200)]
          ["a", "。", " "]).map (fun s => s.text) = ["a。"] ∧
      (create_segments_from_timestamps "t" [(0, 400), (400, 800), (800, 1200)]
          ["a", ",", "b"]).map (fun s => s.text) = ["a,", "b"] :=
  claim_C2 "t" (0, 100) (100, 200) (200, 300) (300, 400) (400, 500)
    (by norm_num [tsMonotone])

theorem dropTrailingWs_cons (c : Char) (t : List Char) :
    dropTrailingWs (c :: t) =
      match dropTrailingWs t with
      | [] => if isPySpace c then [] else [c]
      | r => c :: r := rfl

theorem wsNormal_tail (c : Char) (t : List Char) (h : wsNormal (c :: t) = true) :
    wsNormal t = true := by
  simp [wsNormal, Bool.and_eq_true] at h
  exact h.2

theorem collapse_headNonWs (l : List Char) :
    headNonWs (collapseWsAux true l) = true := by
  induction l with
  | nil => rfl
  | cons c rest ih =>
    by_cases hc : isPySpace c = true
    · simpa [collapseWsAux, hc] using ih
    · simp at hc
      simp [collapseWsAux, hc, headNonWs]

theorem collapse_wsNormal (l : List Char) :
    ∀ b, wsNormal (collapseWsAux b l) = true := by
  induction l with
  | nil => intro b; rfl
  | cons c rest ih =>
    intro b
    by_cases hc : isPySpace c = true
    · cases b with
      | true => simpa [collapseWsAux, hc] using ih true
      | false =>
        simp [collapseWsAux, hc, wsNormal, collapse_headNonWs rest]
        exact ih true
    · simp at hc
      simp [collapseWsAux, hc, wsNormal]
      exact ih false

theorem collapse_fixed (l : List Char) (h : wsNormal l = true) :
    collapseWsAux false l = l ∧
      (headNonWs l = true → collapseWsAux true l = l) := by
  induction l with
  | nil => exact ⟨rfl, fun _ => rfl⟩
  | cons c t ih =>
    have ht : wsNormal t = true := wsNormal_tail c t h
    obtain ⟨ih1, ih2⟩ := ih ht
    by_cases hc : isPySpace c = true
    · simp [wsNormal, hc, Bool.and_eq_true] at h
      have hce : c = ' ' := by simpa using h.1.1
      have hsp : isPySpace ' ' = true := rfl
      refine ⟨?_, ?_⟩
      · simp [collapseWsAux, hce, hsp, ih2 h.1.2]
      · intro hh
        simp [headNonWs, hc] at hh
    · simp at hc
      refine ⟨?_, fun _ => ?_⟩ <;> simp [collapseWsAux, hc, ih1]

theorem wsNormal_dropWhile (p : Char → Bool) (l : List Char)
    (h : wsNormal l = true) : wsNormal (l.dropWhile p) = true := by
  induction l with
  | nil => exact h
  | cons c t ih =>
    by_cases hp : p c = true
    · simp [List.dropWhile_cons, hp]
      exact ih (wsNormal_tail c t h)
    · simp at hp
      simpa [List.dropWhile_cons, hp] using h

theorem dropWhile_head_false (p : Char → Bool) (l : List Char) :
    ∀ c t, l.dropWhile p = c :: t → p c = false := by
  induction l with
  | nil => intro c t h; simp at h
  | cons a l' ih =>
    intro c t h
    by_cases hp : p a = true
    · rw [List.dropWhile_cons, if_pos hp] at h
      exact ih c t h
    · simp at hp
      rw [List.dropWhile_cons, if_neg (by simp [hp])] at h
      cases h
      exact hp

theorem dropTrailingWs_head (l : List Char) :
    dropTrailingWs l = [] ∨ (dropTrailingWs l).head? = l.head? := by
  cases l with
  | nil => exact Or.inl rfl
  | cons c t =>
    cases h : dropTrailingWs t with
    | nil =>
      by_cases hc : isPySpace c = true
      · exact Or.inl (by rw [dropTrailingWs_cons, h]; simp [hc])
      · simp at hc
        exact Or.inr (by rw [dropTrailingWs_cons, h]; simp [hc])
    | cons d r => exact Or.inr (by rw [dropTrailingWs_cons, h]; rfl)

theorem wsNormal_dropTrailingWs (l : List Char) (h : wsNormal l = true) :
    wsNormal (dropTrailingWs l) = true := by
  induction l with
  | nil => exact h
  | cons c t ih =>
    have ht : wsNormal t = true := wsNormal_tail c t h
    have ihr := ih ht
    cases hd : dropTrailingWs t with
    | nil =>
      by_cases hc : isPySpace c = true
      · rw [dropTrailingWs_cons, hd]
        simp [hc, wsNormal]
      · simp at hc
        rw [dropTrailingWs_cons, hd]
        simp [hc, wsNormal]
    | cons d r =>
      have hout : dropTrailingWs (c :: t) = c :: d :: r := by
        rw [dropTrailingWs_cons, hd]
      rw [hout]
      rw [hd] at ihr
      cases t with
      | nil => simp [dropTrailingWs] at hd
      | cons e t' =>
        have hde : d = e := by
          rcases dropTrailingWs_head (e :: t') with h1 | h1
          · rw [h1] at hd; exact absurd hd (by simp)
          · rw [hd] at h1; simpa using h1
        subst hde
        have hcl : (if isPySpace c then c == ' ' && headNonWs (d :: r) else true)
            = true := by
          by_cases hc : isPySpace c = true
          · simp [wsNormal, Bool.and_eq_true] at h
            rcases h.1 with hF | ⟨hce, hnd⟩
            · exact absurd hc (by simp [hF])
            · simp [hc, hce]
              exact Or.inr (by simpa [headNonWs] using hnd)
          · simp [hc]
        show ((if isPySpace c then c == ' ' && headNonWs (d :: r) else true) &&
            wsNormal (d :: r)) = true
        rw [hcl, ihr]
        rfl

theorem dropTrailingWs_idem (l : List Char) :
    dropTrailingWs (dropTrailingWs l) = dropTrailingWs l := by
  induction l with
  | nil => rfl
  | cons c t ih =>
    cases hd : dropTrailingWs t with
    | nil =>
      by_cases hc : isPySpace c = true
      · rw [dropTrailingWs_cons, hd]
        simp [hc, dropTrailingWs]
      · simp at hc
        rw [dropTrailingWs_cons, hd]
        simp [hc, dropTrailingWs]
    | cons d r =>
      rw [hd] at ih
      have hout : dropTrailingWs (c :: t) = c :: d :: r := by
        rw [dropTrailingWs_cons, hd]
      rw [hout, dropTrailingWs_cons, ih]

theorem dropWhile_self (p : Char → Bool) (l : List Char) :
    (l.dropWhile p).dropWhile p = l.dropWhile p := by
  induction l with
  | nil => rfl
  | cons c t ih =>
    by_cases hp : p c = true
    · simp [List.dropWhile_cons, hp, ih]
    · simp at hp
      simp [List.dropWhile_cons, hp]

theorem trim_idem (l : List Char) : trimChars (trimChars l) = trimChars l := by
  unfold trimChars
  have hdw : (dropTrailingWs (l.dropWhile isPySpace)).dropWhile isPySpace =
      dropTrailingWs (l.dropWhile isPySpace) := by
    cases hd : dropTrailingWs (l.dropWhile isPySpace) with
    | nil => rfl
    | cons d r =>
      rcases dropTrailingWs_head (l.dropWhile isPySpace) with h1 | h1
      · rw [h1] at hd; exact absurd hd (by simp)
      · rw [hd] at h1
        cases hl : l.dropWhile isPySpace with
        | nil => rw [hl] at hd; simp [dropTrailingWs] at hd
        | cons e t' =>
          rw [hl] at h1
          have hde : d = e := by simpa using h1
          have hpf : isPySpace e = false := dropWhile_head_false isPySpace l e t' hl
          rw [List.dropWhile_cons, if_neg (by simp [hde, hpf])]
  rw [hdw, dropTrailingWs_idem]

/-- C5 counterexample: markup removal can splice surrounding text into a new
markup token, so the cleaner is not idempotent:
`clean("<|a<|b|>c|>") = "<|ac|>"` while a second clean yields `""`. -/
theorem claim_C5_counterexample :
    ¬ (clean_text (clean_text "<|a<|b|>c|>") = clean_text "<|a<|b|>c|>") := by
  decide

/-- C5 (amended): the cleaner is idempotent on every string whose cleaned
output contains no residual `<|...|>` markup match (one markup pass fixes
it); only re-spliced markup tokens can break idempotence. -/
theorem claim_C5_amended (x : String)
    (h : removeMarkup (clean_text x).data = (clean_text x).data) :
    clean_text (clean_text x) = clean_text x := by
  by_cases hx : x = ""
  · subst hx; decide
  · by_cases hy : clean_text x = ""
    · rw [hy]; decide
    · conv_lhs => rw [clean_text, if_neg hy]
      rw [h]
      rw [clean_text, if_neg hx]
      show pyStrip ⟨collapseWsAux false
        (trimChars (collapseWsAux false (removeMarkup x.data)))⟩ = _
      have h1 : wsNormal (collapseWsAux false (removeMarkup x.data)) = true :=
        collapse_wsNormal _ false
      have h2 : wsNormal
          (trimChars (collapseWsAux false (removeMarkup x.data))) = true := by
        unfold trimChars
        exact wsNormal_dropTrailingWs _ (wsNormal_dropWhile _ _ h1)
      rw [(collapse_fixed _ h2).1]
      show (⟨trimChars (trimChars (collapseWsAux false (removeMarkup x.data)))⟩ :
        String) = _
      rw [trim_idem]
      rfl

theorem claim_C5_witness :
    clean_text (clean_text "<|zh|> hi  there ") = clean_text "<|zh|> hi  there " :=
  claim_C5_amended "<|zh|> hi  there " (by decide)

theorem srtFromSegments_no_keys : ∀ (l : List SegEntry) (i : Nat),
    (∀ e ∈ l, hasTimingKeys e = false) → srtFromSegments i l = .ok "" := by
  intro l
  induction l with
  | nil => intro i _; rfl
  | cons e rest ih =>
    intro i h
    have he := h e (by simp)
    have hr : ∀ x ∈ rest, hasTimingKeys x = false := fun x hx => h x (by simp [hx])
    cases e with
    | str s => simpa [srtFromSegments] using ih (i + 1) hr
    | dict t? s? e? w =>
      cases s? with
      | none => simpa [srtFromSegments] using ih (i + 1) hr
      | some sv =>
        cases e? with
        | none => simpa [srtFromSegments] using ih (i + 1) hr
        | some ev => simp [hasTimingKeys] at he

/-- C10: for a successful result with absent-or-empty `formatted_segments`
and non-empty `segments` containing no dict entry with both `start` and `end`
keys, SRT rendering returns the empty string — no cue is emitted and the
tier-3 full-text fallback is not invoked. -/
theorem claim_C10 (r : TranscriptionResult) (hs : r.success = true)
    (hfs : r.formatted_segments.getD [] = []) (hne : r.segments ≠ [])
    (hkeys : ∀ e ∈ r.segments, hasTimingKeys e = false) :
    format_transcription_output r "srt" = .ok "" := by
  rw [format_transcription_output, if_neg (by simp [hs]), if_neg (by decide),
    if_pos rfl, format_as_srt, if_neg (by simp [hfs]), if_pos hne]
  exact srtFromSegments_no_keys _ 0 hkeys

theorem claim_C10_witness :
    format_transcription_output stringSegmentResult "srt" = .ok "" :=
  claim_C10 stringSegmentResult rfl rfl (by decide) (by decide)

/-- C1: for every successful result with non-empty `formatted_segments` and
non-empty `segments`, SRT rendering equals the tier-1 loop over
`formatted_segments` alone (so tiers 2 and 3 are never consulted), and on a
concrete result whose two sources disagree the tier-1 output (using the
entry's own index 7 and times 0–1) differs from what tier 2 would
produce. -/
theorem claim_C1 (r : TranscriptionResult) (hs : r.success = true)
    (hfs : r.formatted_segments.getD [] ≠ []) (hseg : r.segments ≠ []) :
    format_transcription_output r "srt" =
        srtFromFormatted (r.formatted_segments.getD []) ∧
      format_transcription_output tierClashResult "srt" =
        .ok "7\n00:00:00,000 --> 00:00:01,000\nhello\n\n" ∧
      srtFromSegments 0 tierClashResult.segments =
        .ok "1\n00:00:02,000 --> 00:00:03,000\nhello\n\n" ∧
      ("7\n00:00:00,000 --> 00:00:01,000\nhello\n\n" : String) ≠
        "1\n00:00:02,000 --> 00:00:03,000\nhello\n\n" := by
  refine ⟨?_, ?_, ?_, by decide⟩
  · rw [format_transcription_output, if_neg (by simp [hs]), if_neg (by decide),
      if_pos rfl, format_as_srt, if_pos hfs]
  · simp +decide [format_transcription_output, format_as_srt, tierClashResult,
      srtFromFormatted, srtTimeOf, srt_time_0, srt_time_1]
  · simp +decide [tierClashResult, srtFromSegments, srtTimeOf, srt_time_2,
      srt_time_3]

theorem claim_C1_witness :
    format_transcription_output tierClashResult "srt" =
        srtFromFormatted (tierClashResult.formatted_segments.getD []) ∧
      format_transcription_output tierClashResult "srt" =
        .ok "7\n00:00:00,000 --> 00:00:01,000\nhello\n\n" ∧
      srtFromSegments 0 tierClashResult.segments =
        .ok "1\n00:00:02,000 --> 00:00:03,000\nhello\n\n" ∧
      ("7\n00:00:00,000 --> 00:00:01,000\nhello\n\n" : String) ≠
        "1\n00:00:02,000 --> 00:00:03,000\nhello\n\n" :=
  claim_C1 tierClashResult rfl (by decide) (by decide)

theorem enumFromN_succ (ss : List String) : ∀ n : Nat,
    enumFromN (n + 1) ss = (enumFromN n ss).map (fun p => (p.1 + 1, p.2)) := by
  induction ss with
  | nil => intro n; rfl
  | cons s rest ih =>
    intro n
    simp only [enumFromN, List.map_cons]
    rw [ih (n + 1)]

theorem srtFallbackGo_spec (ss : List String) : ∀ (i : Nat) (t : ℚ),
    srtFallbackGo i t ss = joinStr ((enumFromN 0 ss).map (fun p =>
      toString (i + p.1 + 1) ++ "\n" ++
      seconds_to_srt_time (t + sumDurations (ss.take p.1)) ++ " --> " ++
      seconds_to_srt_time
        (t + sumDurations (ss.take p.1) + fallbackDuration p.2) ++
      "\n" ++ (if endsWithSentenceEnd p.2 then p.2 else p.2 ++ "。") ++
      "\n\n")) := by
  induction ss with
  | nil => intro i t; rfl
  | cons s rest ih =>
    intro i t
    simp only [srtFallbackGo]
    rw [ih (i + 1) (t + fallbackDuration s)]
    simp only [enumFromN, List.map_cons, joinStr, enumFromN_succ, List.map_map]
    congr 1
    · simp [sumDurations]
    · refine congrArg joinStr (List.map_congr_left fun p hp => ?_)
      obtain ⟨k, w⟩ := p
      simp only [Function.comp, List.take_succ_cons, sumDurations]
      rw [show i + (k + 1) + 1 = i + 1 + k + 1 by omega, ← add_assoc]

/-- C8: the full-text SRT fallback splits on `。！？.!?` with delimiters
discarded, drops pieces empty after trimming, assigns sequential timing from
0 where each sentence lasts `max(2.0, len * 0.4)` seconds (so one character
gets exactly 2.0s), and appends `。` to sentences not already ending in a
terminator; the rendered body equals the spec-side closed form
`specSrtCue`. -/
theorem claim_C8 (r : TranscriptionResult) (hs : r.success = true)
    (hfs : r.formatted_segments.getD [] = []) (hseg : r.segments = [])
    (htext : r.text ≠ "") :
    format_transcription_output r "srt" =
        .ok (joinStr ((enumFromN 0 (fallbackSentences r.text)).map
          (specSrtCue (fallbackSentences r.text)))) ∧
      fallbackSentences "你好。。再见" = ["你好", "再见"] ∧
      fallbackDuration "a" = 2 ∧
      srtFallbackGo 0 0 (fallbackSentences "a") =
        "1\n00:00:00,000 --> 00:00:02,000\na。\n\n" := by
  have hdur : fallbackDuration "a" = 2 := by
    have h1 : ("a" : String).length = 1 := rfl
    simp [fallbackDuration, h1]
    norm_num
  refine ⟨?_, by decide, hdur, ?_⟩
  · rw [format_transcription_output, if_neg (by simp [hs]), if_neg (by decide),
      if_pos rfl, format_as_srt, if_neg (by simp [hfs]),
      if_neg (by simp [hseg]), if_pos htext]
    rw [srtFallbackGo_spec]
    refine congrArg Except.ok (congrArg joinStr
      (List.map_congr_left fun p hp => ?_))
    simp [specSrtCue]
  · have hse : fallbackSentences "a" = ["a"] := by decide
    have hend : endsWithSentenceEnd "a" = false := by decide
    rw [hse]
    simp only [srtFallbackGo, hdur, hend, Bool.false_eq_true, if_false]
    rw [srt_time_0, show (0 : ℚ) + 2 = 2 by norm_num, srt_time_2]
    rfl

theorem claim_C8_witness :
    format_transcription_output fallbackResult "srt" =
        .ok (joinStr ((enumFromN 0 (fallbackSentences fallbackResult.text)).map
          (specSrtCue (fallbackSentences fallbackResult.text)))) ∧
      fallbackSentences "你好。。再见" = ["你好", "再见"] ∧
      fallbackDuration "a" = 2 ∧
      srtFallbackGo 0 0 (fallbackSentences "a") =
        "1\n00:00:00,000 --> 00:00:02,000\na。\n\n" :=
  claim_C8 fallbackResult rfl rfl rfl (by decide)

theorem joinStr_append (a b : List String) :
    joinStr (a ++ b) = joinStr a ++ joinStr b := by
  induction a with
  | nil => simp [joinStr]
  | cons s rest ih => simp [joinStr, ih, String.append_assoc]

theorem str_append_empty (s : String) : s ++ "" = s := by
  cases s with
  | mk l => show String.mk (l ++ []) = String.mk l; rw [List.append_nil]

theorem segInv_empty : segInv emptySegment := by
  refine ⟨by simp [emptySegment], rfl, rfl, rfl⟩

theorem segGo_markup_inv : ∀ (l : List (String × Int × Int)) (cur : Segment),
    segInv cur → ∀ sg ∈ segGo cur l, segInv sg := by
  intro l
  induction l with
  | nil => intro cur _ sg hsg; simp [segGo] at hsg
  | cons wt rest ih =>
    obtain ⟨word, sms, ems⟩ := wt
    intro cur h sg hsg
    obtain ⟨hW, hT, hS, hE⟩ := h
    by_cases hm : isMarkupWord word = true
    · rw [segGo, if_pos hm] at hsg
      exact ih cur ⟨hW, hT, hS, hE⟩ sg hsg
    · simp only [Bool.not_eq_true] at hm
      rw [segGo, if_neg (by simp [hm])] at hsg
      have hcur' : segInv
          ⟨cur.text ++ word,
            match cur.start with
            | none => some ((sms : ℚ) / 1000)
            | some s => some s,
            some ((ems : ℚ) / 1000),
            cur.words ++ [⟨word, (sms : ℚ) / 1000, (ems : ℚ) / 1000⟩]⟩ := by
        refine ⟨?_, ?_, ?_, ?_⟩
        · intro wi hwi
          rcases List.mem_append.mp hwi with h1 | h1
          · exact hW wi h1
          · simp at h1
            rw [h1]
            exact hm
        · show cur.text ++ word = joinStr ((cur.words ++ [_]).map _)
          rw [List.map_append, joinStr_append, ← hT]
          simp [joinStr, str_append_empty]
        · show (match cur.start with
              | none => some ((sms : ℚ) / 1000)
              | some s => some s) = _
          cases hws : cur.words with
          | nil =>
            rw [hws] at hS
            simp at hS
            rw [hS]
            simp
          | cons w0 wrest =>
            rw [hws] at hS
            simp at hS
            rw [hS]
            simp
        · show some ((ems : ℚ) / 1000) = _
          rw [List.getLast?_concat]
          rfl
      by_cases he : (word ∈ punctuationMarks ∨ rest = [])
      · rw [if_pos he] at hsg
        by_cases ht : pyStrip (cur.text ++ word) ≠ ""
        · rw [if_pos ht] at hsg
          rcases List.mem_append.mp hsg with h1 | h1
          · simp at h1
            rw [h1]
            exact hcur'
          · exact ih emptySegment segInv_empty sg h1
        · rw [if_neg ht] at hsg
          simp at hsg
          exact ih emptySegment segInv_empty sg hsg
      · rw [if_neg he] at hsg
        exact ih _ hcur' sg hsg

/-- C9: a markup word (starting `<|`, ending `|>`) is skipped by the
segmenter: every returned segment's words are non-markup, its text is the
concatenation of those words, and its start/end are the first/last word's
times — so a markup word contributes no text or timing record and never sets
or resets segment timing, even mid-stream. -/
theorem claim_C9 (text : String) (timestamps : List (Int × Int))
    (words : List String) (sg : Segment)
    (hsg : sg ∈ create_segments_from_timestamps text timestamps words) :
    (∀ wi ∈ sg.words, isMarkupWord wi.word = false) ∧
      sg.text = joinStr (sg.words.map (fun w => w.word)) ∧
      sg.start = sg.words.head?.map (fun w => w.start) ∧
      sg.end_ = sg.words.getLast?.map (fun w => w.end_) := by
  rw [create_segments_from_timestamps] at hsg
  by_cases hd : (timestamps = [] ∨ words = [] ∨
      timestamps.length ≠ words.length)
  · rw [if_pos hd] at hsg
    simp at hsg
  · rw [if_neg hd] at hsg
    exact segGo_markup_inv _ emptySegment segInv_empty sg hsg

theorem claim_C9_witness :
    (∀ wi ∈ (⟨"ab", some 0, some (3 / 10 : ℚ),
        [⟨"a", 0, 1 / 10⟩, ⟨"b", 1 / 5, 3 / 10⟩]⟩ : Segment).words,
        isMarkupWord wi.word = false) ∧
      (⟨"ab", some 0, some (3 / 10 : ℚ),
        [⟨"a", 0, 1 / 10⟩, ⟨"b", 1 / 5, 3 / 10⟩]⟩ : Segment).text =
        joinStr ((⟨"ab", some 0, some (3 / 10 : ℚ),
          [⟨"a", 0, 1 / 10⟩, ⟨"b", 1 / 5, 3 / 10⟩]⟩ : Segment).words.map
            (fun w => w.word)) ∧
      (⟨"ab", some 0, some (3 / 10 : ℚ),
        [⟨"a", 0, 1 / 10⟩, ⟨"b", 1 / 5, 3 / 10⟩]⟩ : Segment).start =
        (⟨"ab", some 0, some (3 / 10 : ℚ),
          [⟨"a", 0, 1 / 10⟩, ⟨"b", 1 / 5, 3 / 10⟩]⟩ : Segment).words.head?.map
            (fun w => w.start) ∧
      (⟨"ab", some 0, some (3 / 10 : ℚ),
        [⟨"a", 0, 1 / 10⟩, ⟨"b", 1 / 5, 3 / 10⟩]⟩ : Segment).end_ =
        (⟨"ab", some 0, some (3 / 10 : ℚ),
          [⟨"a", 0, 1 / 10⟩, ⟨"b", 1 / 5, 3 / 10⟩]⟩ : Segment).words.getLast?.map
            (fun w => w.end_) :=
  claim_C9 "x" [(0, 100), (100, 200), (200, 300)] ["a", "<|x|>", "b"] _
    (by simp +decide [create_segments_from_timestamps, segGo, emptySegment]
        norm_num)

theorem zip_chainSec : ∀ (ts : List (Int × Int)) (ws : List String) (b : ℚ),
    tsMonotone ts →
    (match ts with | [] => True | (s, _) :: _ => b ≤ (s : ℚ) / 1000) →
    chainSec b (ws.zip ts) := by
  intro ts
  induction ts with
  | nil => intro ws b _ _; cases ws <;> exact trivial
  | cons p ts' ih =>
    obtain ⟨s, e⟩ := p
    intro ws b hm hb
    cases ws with
    | nil => exact trivial
    | cons w ws' =>
      simp only [tsMonotone] at hm
      obtain ⟨h1, h2, h3⟩ := hm
      rw [List.zip_cons_cons, chainSec]
      refine ⟨hb, ?_, ?_⟩
      · have hc : (s : ℚ) ≤ (e : ℚ) := by exact_mod_cast h1
        exact div_le_div_of_nonneg_right hc (by norm_num)
      · apply ih ws' ((e : ℚ) / 1000) h3
        cases ts' with
        | nil => exact trivial
        | cons q ts'' =>
          obtain ⟨s2, e2⟩ := q
          have h2' : e ≤ s2 := h2
          have hc : (e : ℚ) ≤ (s2 : ℚ) := by exact_mod_cast h2'
          exact div_le_div_of_nonneg_right hc (by norm_num)

theorem segGo_chain : ∀ (l : List (String × Int × Int)) (cur : Segment)
    (lb b : ℚ), chainSec b l → lb ≤ b →
    (cur.start = none ∨ ∃ st, cur.start = some st ∧ lb ≤ st ∧ st ≤ b) →
    chainOK lb (segGo cur l) := by
  intro l
  induction l with
  | nil => intro cur lb b _ _ _; exact trivial
  | cons wt rest ih =>
    obtain ⟨word, sms, ems⟩ := wt
    intro cur lb b hc hlb hcur
    rw [chainSec] at hc
    obtain ⟨hbs, hse, hrest⟩ := hc
    by_cases hm : isMarkupWord word = true
    · rw [segGo, if_pos hm]
      apply ih cur lb ((ems : ℚ) / 1000) hrest
        (le_trans hlb (le_trans hbs hse))
      rcases hcur with h0 | ⟨st, h1, h2, h3⟩
      · exact Or.inl h0
      · exact Or.inr ⟨st, h1, h2, le_trans h3 (le_trans hbs hse)⟩
    · rw [segGo, if_neg (by simp [hm])]
      by_cases he : (word ∈ punctuationMarks ∨ rest = [])
      · rw [if_pos he]
        by_cases ht : pyStrip (cur.text ++ word) ≠ ""
        · rw [if_pos ht]
          simp only [List.singleton_append]
          rw [chainOK]
          rcases hcur with h0 | ⟨st0, h1, h2, h3⟩
          · refine ⟨(sms : ℚ) / 1000, (ems : ℚ) / 1000, ?_, rfl,
              le_trans hlb hbs, hse, ?_⟩
            · show (match cur.start with
                | none => some ((sms : ℚ) / 1000)
                | some s => some s) = some ((sms : ℚ) / 1000)
              rw [h0]
            · exact ih emptySegment _ _ hrest (le_refl _) (Or.inl rfl)
          · refine ⟨st0, (ems : ℚ) / 1000, ?_, rfl, h2,
              le_trans h3 (le_trans hbs hse), ?_⟩
            · show (match cur.start with
                | none => some ((sms : ℚ) / 1000)
                | some s => some s) = some st0
              rw [h1]
            · exact ih emptySegment _ _ hrest (le_refl _) (Or.inl rfl)
        · rw [if_neg ht]
          simp only [List.nil_append]
          exact ih emptySegment lb ((ems : ℚ) / 1000) hrest
            (le_trans hlb (le_trans hbs hse)) (Or.inl rfl)
      · rw [if_neg he]
        apply ih _ lb ((ems : ℚ) / 1000) hrest
          (le_trans hlb (le_trans hbs hse))
        rcases hcur with h0 | ⟨st0, h1, h2, h3⟩
        · refine Or.inr ⟨(sms : ℚ) / 1000, ?_, le_trans hlb hbs, hse⟩
          show (match cur.start with
            | none => some ((sms : ℚ) / 1000)
            | some s => some s) = some ((sms : ℚ) / 1000)
          rw [h0]
        · refine Or.inr ⟨st0, ?_, h2, le_trans h3 (le_trans hbs hse)⟩
          show (match cur.start with
            | none => some ((sms : ℚ) / 1000)
            | some s => some s) = some st0
          rw [h1]

theorem chainOK_chrono : ∀ (l : List Segment) (lb : ℚ), chainOK lb l →
    segmentsChronological l = true := by
  intro l
  induction l with
  | nil => intro lb _; rfl
  | cons sg rest ih =>
    intro lb h
    rw [chainOK] at h
    obtain ⟨st, en, h1, h2, _, h4, h5⟩ := h
    have hb := ih en h5
    cases rest with
    | nil => simp [segmentsChronological, h1, h2, h4]
    | cons sg2 rest' =>
      rw [chainOK] at h5
      obtain ⟨st2, en2, h21, _, h23, _, _⟩ := h5
      have hstep : segmentsChronological (sg :: sg2 :: rest') =
          ((match sg.start, sg.end_ with
            | some st, some en => decide (st ≤ en) &&
                (match sg2.start with
                 | some st2 => decide (en ≤ st2)
                 | none => false)
            | _, _ => false) && segmentsChronological (sg2 :: rest')) := rfl
      rw [hstep, h1, h2, h21, hb]
      simp [h4, h23]

/-- C3 (amended): when the timestamp pairs are chronologically ordered (each
start ≤ its end and each end ≤ the next start), every returned segment has
numeric start ≤ end and the segments are in chronological, non-overlapping,
ascending order; without that ordering hypothesis the property fails. -/
theorem claim_C3_amended (text : String) (timestamps : List (Int × Int))
    (words : List String) (hmono : tsMonotone timestamps) :
    segmentsChronological
      (create_segments_from_timestamps text timestamps words) = true := by
  rw [create_segments_from_timestamps]
  by_cases hd : (timestamps = [] ∨ words = [] ∨
      timestamps.length ≠ words.length)
  · rw [if_pos hd]; rfl
  · rw [if_neg hd]
    cases timestamps with
    | nil => exact absurd (Or.inl rfl) hd
    | cons p ts' =>
      obtain ⟨s, e⟩ := p
      apply chainOK_chrono _ ((s : ℚ) / 1000)
      apply segGo_chain _ emptySegment ((s : ℚ) / 1000) ((s : ℚ) / 1000) ?_
        (le_refl _) (Or.inl rfl)
      exact zip_chainSec _ _ _ hmono (le_refl _)

/-- C3 counterexample: the claim as stated quantifies over every equal-length
non-empty input; with the decreasing timestamp pair `[[1000, 0]]` the single
returned segment has start 1.0 > end 0.0. -/
theorem claim_C3_counterexample :
    ¬ (segmentsChronological
      (create_segments_from_timestamps "a" [(1000, 0)] ["a"]) = true) := by
  have hseg : create_segments_from_timestamps "a" [(1000, 0)] ["a"] =
      [⟨"a", some 1, some 0, [⟨"a", 1, 0⟩]⟩] := by
    simp +decide [create_segments_from_timestamps, segGo, emptySegment]
  rw [hseg]
  simp [segmentsChronological]

theorem claim_C3_witness :
    segmentsChronological (create_segments_from_timestamps "t"
      [(0, 100), (100, 200)] ["a", "。"]) = true :=
  claim_C3_amended "t" [(0, 100), (100, 200)] ["a", "。"]
    (by norm_num [tsMonotone])

theorem srtFromFormatted_ok : ∀ (l : List FormattedSegment),
    (∀ f ∈ l, numericFS f = true) → ∃ s, srtFromFormatted l = .ok s := by
  intro l
  induction l with
  | nil => intro _; exact ⟨"", rfl⟩
  | cons f rest ih =>
    intro h
    have hf := h f (by simp)
    simp only [numericFS, Bool.and_eq_true, Option.isSome_iff_exists] at hf
    obtain ⟨⟨q1, hq1⟩, q2, hq2⟩ := hf
    obtain ⟨tail, htail⟩ := ih (fun x hx => h x (by simp [hx]))
    simp only [srtFromFormatted]
    rw [hq1, hq2, htail]
    exact ⟨_, rfl⟩

theorem srtFromSegments_ok : ∀ (l : List SegEntry) (i : Nat),
    (∀ e ∈ l, numericTimes e = true) → ∃ s, srtFromSegments i l = .ok s := by
  intro l
  induction l with
  | nil => intro i _; exact ⟨"", rfl⟩
  | cons e rest ih =>
    intro i h
    have he := h e (by simp)
    have hr : ∀ x ∈ rest, numericTimes x = true := fun x hx => h x (by simp [hx])
    obtain ⟨tail, htail⟩ := ih (i + 1) hr
    cases e with
    | str s =>
      refine ⟨tail, ?_⟩
      simpa only [srtFromSegments] using htail
    | dict t? s? e? w =>
      cases s? with
      | none =>
        refine ⟨tail, ?_⟩
        simpa only [srtFromSegments] using htail
      | some sv =>
        cases e? with
        | none =>
          refine ⟨tail, ?_⟩
          simpa only [srtFromSegments] using htail
        | some ev =>
          cases sv with
          | none => simp [numericTimes] at he
          | some q1 =>
            cases ev with
            | none => simp [numericTimes] at he
            | some q2 =>
              simp only [srtFromSegments]
              rw [htail]
              exact ⟨_, rfl⟩

theorem vttFromFormatted_ok : ∀ (l : List FormattedSegment),
    (∀ f ∈ l, numericFS f = true) → ∃ s, vttFromFormatted l = .ok s := by
  intro l
  induction l with
  | nil => intro _; exact ⟨"", rfl⟩
  | cons f rest ih =>
    intro h
    have hf := h f (by simp)
    simp only [numericFS, Bool.and_eq_true, Option.isSome_iff_exists] at hf
    obtain ⟨⟨q1, hq1⟩, q2, hq2⟩ := hf
    obtain ⟨tail, htail⟩ := ih (fun x hx => h x (by simp [hx]))
    simp only [vttFromFormatted]
    rw [hq1, hq2, htail]
    exact ⟨_, rfl⟩

theorem vttFromSegments_ok : ∀ (l : List SegEntry) (i : Nat),
    (∀ e ∈ l, numericTimes e = true) → ∃ s, vttFromSegments i l = .ok s := by
  intro l
  induction l with
  | nil => intro i _; exact ⟨"", rfl⟩
  | cons e rest ih =>
    intro i h
    have he := h e (by simp)
    have hr : ∀ x ∈ rest, numericTimes x = true := fun x hx => h x (by simp [hx])
    obtain ⟨tail, htail⟩ := ih (i + 1) hr
    cases e with
    | str s =>
      simp only [vttFromSegments]
      rw [htail]
      exact ⟨_, rfl⟩
    | dict t? s? e? w =>
      cases s? with
      | none =>
        simp only [vttFromSegments]
        rw [htail]
        exact ⟨_, rfl⟩
      | some sv =>
        cases e? with
        | none =>
          simp only [vttFromSegments]
          rw [htail]
          exact ⟨_, rfl⟩
        | some ev =>
          cases sv with
          | none => simp [numericTimes] at he
          | some q1 =>
            cases ev with
            | none => simp [numericTimes] at he
            | some q2 =>
              simp only [vttFromSegments]
              rw [htail]
              exact ⟨_, rfl⟩

theorem format_as_srt_ok (r : TranscriptionResult)
    (h1 : ∀ f ∈ r.formatted_segments.getD [], numericFS f = true)
    (h2 : ∀ e ∈ r.segments, numericTimes e = true) :
    ∃ s, format_as_srt r = .ok s := by
  rw [format_as_srt]
  by_cases hfs : r.formatted_segments.getD [] ≠ []
  · rw [if_pos hfs]
    exact srtFromFormatted_ok _ h1
  · rw [if_neg hfs]
    by_cases hseg : r.segments ≠ []
    · rw [if_pos hseg]
      exact srtFromSegments_ok _ 0 h2
    · rw [if_neg hseg]
      by_cases htext : r.text ≠ ""
      · rw [if_pos htext]
        exact ⟨_, rfl⟩
      · rw [if_neg htext]
        exact ⟨_, rfl⟩

theorem format_as_vtt_ok (r : TranscriptionResult)
    (h1 : ∀ f ∈ r.formatted_segments.getD [], numericFS f = true)
    (h2 : ∀ e ∈ r.segments, numericTimes e = true) :
    ∃ s, format_as_vtt r = .ok s := by
  rw [format_as_vtt]
  by_cases hfs : r.formatted_segments.getD [] ≠ []
  · rw [if_pos hfs]
    obtain ⟨s, hs⟩ := vttFromFormatted_ok _ h1
    rw [hs]
    exact ⟨_, rfl⟩
  · rw [if_neg hfs]
    by_cases hseg : r.segments ≠ []
    · rw [if_pos hseg]
      obtain ⟨s, hs⟩ := vttFromSegments_ok _ 0 h2
      rw [hs]
      exact ⟨_, rfl⟩
    · rw [if_neg hseg]
      by_cases htext : r.text ≠ ""
      · rw [if_pos htext]
        exact ⟨_, rfl⟩
      · rw [if_neg htext]
        exact ⟨_, rfl⟩

/-- C4 (amended): rendering returns a string for every result and format
provided every timing value present is numeric; the renderer itself catches
nothing, and the only error-to-text conversion is the success=false
short-circuit. -/
theorem claim_C4_amended (r : TranscriptionResult)
    (output_format : String) (hg : goodTimes r) :
    ∃ s, format_transcription_output r output_format = .ok s := by
  obtain ⟨hg1, hg2⟩ := hg
  rw [format_transcription_output]
  by_cases hs : r.success = false
  · rw [if_pos hs]; exact ⟨_, rfl⟩
  · rw [if_neg hs]
    by_cases h1 : output_format = "text"
    · rw [if_pos h1]; exact ⟨_, rfl⟩
    · rw [if_neg h1]
      by_cases h2 : output_format = "srt"
      · rw [if_pos h2]
        exact format_as_srt_ok r hg1 hg2
      · rw [if_neg h2]
        by_cases h3 : output_format = "vtt"
        · rw [if_pos h3]
          exact format_as_vtt_ok r hg1 hg2
        · rw [if_neg h3]
          by_cases h4 : output_format = "json"
          · rw [if_pos h4]; exact ⟨_, rfl⟩
          · rw [if_neg h4]; exact ⟨_, rfl⟩

/-- C4 counterexample: a successful result whose single segment dict carries
`start`/`end` keys holding Python `None` (exactly the shape
`_clean_segments_with_timestamps` builds for string segments) makes SRT
rendering raise a `TypeError` past the rendering boundary instead of
returning an error-text string. -/
theorem claim_C4_counterexample :
    format_transcription_output noneTimingResult "srt" =
      .error "TypeError: unsupported operand for //: NoneType" := by
  decide

theorem claim_C4_witness :
    ∃ s, format_transcription_output tierClashResult "vtt" = .ok s :=
  claim_C4_amended tierClashResult "vtt" ⟨by decide, by decide⟩
